import Mathlib

/-!
Verification of the path-resolution and file-reconciliation engine of the
tiptap-ui-components CLI (`packages/cli/src/utils/updaters/update-files.ts`).

The TypeScript source is shallowly embedded: every exported function of the
source file (`updateFiles`, `resolveFileTargetDirectory`, `findCommonRoot`,
`getNormalizedFileContent`, `resolvePageTarget`, `resolveNestedFilePath`,
`resolveFilePath`) is translated to an executable Lean definition.  The
JavaScript string primitives the source relies on (`String.prototype.replace`
with string or anchored-regex patterns, `split`, `startsWith`, `includes`,
`trim`) are modelled character-list by character-list, and Node's `path`
helpers (`join`, `dirname`, `basename`, `relative`) are modelled for the
slash-separated inputs this CLI produces (no `.`/`..` segments, which never
occur in registry paths).  The filesystem, the external transform pipeline,
the interactive confirmation prompt and the two failure modes of `fs.mkdir` /
`fs.writeFile` are explicit parameters of the reconciliation run.
-/

/-! ## Character-list models of the JavaScript string primitives -/

/-- Model of JS `String.prototype.startsWith` on character lists:
`listLeads pat l` is true when `pat` is a leading run of `l`. -/
def listLeads : List Char → List Char → Bool
  | [], _ => true
  | _ :: _, [] => false
  | a :: as, b :: bs => a == b && listLeads as bs

/-- Model of JS `String.prototype.includes` on character lists:
`subOccurs pat l` is true when `pat` occurs contiguously inside `l`. -/
def subOccurs (pat : List Char) : List Char → Bool
  | [] => listLeads pat []
  | c :: cs => listLeads pat (c :: cs) || subOccurs pat cs

/-- JS `s.startsWith(pat)`. -/
def strStartsWith (s pat : String) : Bool := listLeads pat.data s.data

/-- JS `s.endsWith(pat)` (used to model `$`-anchored regex suffix tests). -/
def strEndsWith (s pat : String) : Bool := listLeads pat.data.reverse s.data.reverse

/-- JS `s.includes(pat)`. -/
def strContains (s pat : String) : Bool := subOccurs pat.data s.data

/-- Drop the first `n` characters of a string. -/
def strDropLen (s : String) (n : Nat) : String := ⟨s.data.drop n⟩

/-- Drop the last `n` characters of a string. -/
def strDropEndLen (s : String) (n : Nat) : String := ⟨(s.data.reverse.drop n).reverse⟩

/-- Replace the first occurrence of the non-empty pattern `pat` in the list by
`repl`; the list is unchanged when `pat` does not occur.  This is the
behaviour of JS `String.prototype.replace` with a plain-string pattern. -/
def replaceFirstAux (pat repl : List Char) : List Char → List Char
  | [] => []
  | c :: cs =>
    if listLeads pat (c :: cs) then repl ++ (c :: cs).drop pat.length
    else c :: replaceFirstAux pat repl cs

/-- JS `s.replace(pat, repl)` for a plain-string pattern `pat` (first
occurrence only).  The source only calls this with the non-empty patterns
`"~/"`, `"src/"` and `"components/"`. -/
def jsReplaceFirst (s pat repl : String) : String :=
  ⟨replaceFirstAux pat.data repl.data s.data⟩

/-- JS `s.replace(/^pat/, repl)`: an anchored prefix rewrite. -/
def jsReplaceLeading (s old new : String) : String :=
  if strStartsWith s old then new ++ strDropLen s old.data.length else s

/-- Split on the slash character, JS `s.split("/")` (so `""` yields `[""]`
and separators at the ends yield empty segments). -/
def splitSlashAux : List Char → List Char → List String
  | [], acc => [⟨acc.reverse⟩]
  | c :: cs, acc =>
    if c == '/' then ⟨acc.reverse⟩ :: splitSlashAux cs []
    else splitSlashAux cs (c :: acc)

/-- JS `s.split("/")`. -/
def splitSlash (s : String) : List String := splitSlashAux s.data []

/-- JS `segments.join("/")`. -/
def joinSlash : List String → String
  | [] => ""
  | [s] => s
  | s :: t :: rest => s ++ "/" ++ joinSlash (t :: rest)

/-- Splitting on a multi-character separator (JS `s.split(sep)` for the
separator `"/data/"`); `p :: ps` is the non-empty separator. -/
def splitSubAux (p : Char) (ps : List Char) : List Char → List Char → List (List Char)
  | [], acc => [acc.reverse]
  | c :: cs, acc =>
    if listLeads (p :: ps) (c :: cs) then
      acc.reverse :: splitSubAux p ps (cs.drop ps.length) []
    else
      splitSubAux p ps cs (c :: acc)
termination_by l _ => l.length
decreasing_by
  · simp [List.length_drop]; omega
  · simp

/-- JS `s.split(sep)` for a non-empty string separator. -/
def jsSplitOnStr (s pat : String) : List String :=
  match pat.data with
  | [] => [s]
  | p :: ps => (splitSubAux p ps s.data []).map (fun l => ⟨l⟩)

/-- The white-space characters removed by JS `String.prototype.trim`
(restricted to the ASCII range, which is all the registry contents use). -/
def jsWhitespace (c : Char) : Bool :=
  c == ' ' || c == '\t' || c == '\n' || c == '\r' || c == '\x0b' || c == '\x0c'

/-- Model of the global regex replace `content.replace(/\r\n/g, "\n")`:
left-to-right, non-overlapping. -/
def crlfToLf : List Char → List Char
  | '\r' :: '\n' :: rest => '\n' :: crlfToLf rest
  | c :: rest => c :: crlfToLf rest
  | [] => []

/-- JS `s.trim()` on character lists. -/
def jsTrimChars (l : List Char) : List Char :=
  ((l.dropWhile jsWhitespace).reverse.dropWhile jsWhitespace).reverse

/-! ## Models of the Node `path` helpers

These model the `path` module for the slash-separated inputs of this CLI:
absolute or registry-relative paths without `.` or `..` segments. -/

/-- Node `path.join(...parts)` for dot-free segments: drop empty parts, join
with `/`, collapse duplicate separators, keep a leading slash. -/
def pathJoin (parts : List String) : String :=
  let raw := joinSlash (parts.filter (fun p => p ≠ ""))
  let segs := (splitSlash raw).filter (fun s => s ≠ "")
  (if strStartsWith raw "/" then "/" else "") ++ joinSlash segs

/-- Node `path.dirname`. -/
def pathDirname (p : String) : String :=
  let segs := splitSlash p
  if segs.length ≤ 1 then "."
  else
    let d := joinSlash segs.dropLast
    if d = "" then "/" else d

/-- Node `path.basename`. -/
def pathBasename (p : String) : String :=
  ((splitSlash p).filter (fun s => s ≠ "")).getLastD ""

/-- Drop the shared leading segments of two segment lists. -/
def dropShared : List String → List String → List String × List String
  | a :: as, b :: bs => if a = b then dropShared as bs else (a :: as, b :: bs)
  | as, bs => (as, bs)

/-- Node `path.relative(base, p)` for two absolute dot-free paths. -/
def pathRelative (base p : String) : String :=
  let bs := (splitSlash base).filter (fun s => s ≠ "")
  let ps := (splitSlash p).filter (fun s => s ≠ "")
  let rem := dropShared bs ps
  joinSlash (List.replicate rem.1.length ".." ++ rem.2)

/-! ## Data model (registry file descriptors, project configuration) -/

/-- The `config.resolvedPaths` table: one absolute base directory per
registry kind, plus the project root `cwd`. -/
structure ResolvedPaths where
  cwd : String
  tiptapUi : String
  tiptapUiPrimitives : String
  tiptapExtensions : String
  tiptapNodes : String
  tiptapIcons : String
  hooks : String
  lib : String
  contexts : String
  components : String
  styles : String
deriving DecidableEq, Repr

/-- The project configuration consumed by the updater (`Config`). -/
structure Config where
  resolvedPaths : ResolvedPaths
  tsx : Bool
deriving DecidableEq, Repr

/-- One registry file descriptor (`registryItemFileSchema`): `path`, `type`
(the kind tag, e.g. `"registry:ui"`), optional `target`, optional `content`. -/
structure RegFile where
  path : String
  type : String
  target : Option String
  content : Option String
deriving DecidableEq, Repr

/-- The options record taken by `resolveFilePath`. -/
structure ResolveOptions where
  isSrcDir : Option Bool
  commonRoot : Option String
  framework : Option String
deriving DecidableEq, Repr

/-- The options record taken by `updateFiles` (spinner omitted: display only). -/
structure UpdateOptions where
  overwrite : Bool
  force : Bool
  silent : Bool
deriving DecidableEq, Repr

/-! ## Source translation: the pure resolver functions of `update-files.ts` -/

/-- Source `resolveFileTargetDirectory(file, config, override?)`: the closed
kind-to-directory lookup table (lines 214-264). -/
def resolveFileTargetDirectory (file : RegFile) (config : Config)
    (override : Option String) : String :=
  if override.getD "" ≠ "" then override.getD ""
  else if file.type = "registry:ui" then config.resolvedPaths.tiptapUi
  else if file.type = "registry:ui-primitive" then config.resolvedPaths.tiptapUiPrimitives
  else if file.type = "registry:extension" then config.resolvedPaths.tiptapExtensions
  else if file.type = "registry:node" then config.resolvedPaths.tiptapNodes
  else if file.type = "registry:icon" then config.resolvedPaths.tiptapIcons
  else if file.type = "registry:hook" then config.resolvedPaths.hooks
  else if file.type = "registry:lib" then config.resolvedPaths.lib
  else if file.type = "registry:context" then config.resolvedPaths.contexts
  else if file.type = "registry:template" ∨ file.type = "registry:component" then
    config.resolvedPaths.components
  else if file.type = "registry:style" then config.resolvedPaths.styles
  else config.resolvedPaths.components

/-- JS `p.replace(/^\//, "")`: strip one leading slash. -/
def stripOneLeadingSlash (p : String) : String :=
  if strStartsWith p "/" then strDropLen p 1 else p

/-- The countdown loop of `findCommonRoot` (source lines 283-292): for
`i = needleSegments.length` down to `1`, return `"/" ++ testPath` for the
first (longest) prefix `testPath` that another normalized path extends. -/
def findCommonRootLoop (normalizedPaths : List String) (normalizedNeedle : String)
    (needleSegments : List String) : Nat → Option String
  | 0 => none
  | Nat.succ i =>
    let testPath := joinSlash (needleSegments.take (i + 1))
    if normalizedPaths.any
        (fun p => p ≠ normalizedNeedle && strStartsWith p (testPath ++ "/")) then
      some ("/" ++ testPath)
    else findCommonRootLoop normalizedPaths normalizedNeedle needleSegments i

/-- Source `findCommonRoot(paths, needle)` (lines 266-296). -/
def findCommonRoot (paths : List String) (needle : String) : String :=
  let normalizedPaths := paths.map stripOneLeadingSlash
  let normalizedNeedle := stripOneLeadingSlash needle
  let needleDir := joinSlash ((splitSlash normalizedNeedle).dropLast)
  if needleDir = "" then ""
  else
    let needleSegments := splitSlash needleDir
    match findCommonRootLoop normalizedPaths normalizedNeedle needleSegments
        needleSegments.length with
    | some r => r
    | none => "/" ++ needleDir

/-- Source `getNormalizedFileContent(content)` (lines 298-300):
`content.replace(/\r\n/g, "\n").trim()`. -/
def getNormalizedFileContent (content : String) : String :=
  ⟨jsTrimChars (crlfToLf content.data)⟩

/-- The regex replace `result.replace(/\/page(\.[jt]sx?)$/, "$1")`: strip a
trailing `/page` in front of one of the four script extensions (the character
class `[jt]sx?` admits exactly `.js`, `.jsx`, `.ts`, `.tsx`).  The four
suffix tests are mutually exclusive, so their order is immaterial. -/
def jsStripPageSuffix (s : String) : String :=
  if strEndsWith s "/page.js" then strDropEndLen s 8 ++ ".js"
  else if strEndsWith s "/page.jsx" then strDropEndLen s 9 ++ ".jsx"
  else if strEndsWith s "/page.ts" then strDropEndLen s 8 ++ ".ts"
  else if strEndsWith s "/page.tsx" then strDropEndLen s 9 ++ ".tsx"
  else s

/-- Source `resolvePageTarget(target, framework?)` (lines 302-336).  A JS
falsy framework (`undefined` or `""`) yields `""`; `""` is also what the
final fall-through returns, so `some ""` needs no special case. -/
def resolvePageTarget (target : String) (framework : Option String) : String :=
  match framework with
  | none => ""
  | some fw =>
    if fw = "next-app" then target
    else if fw = "next-pages" then
      jsStripPageSuffix (jsReplaceLeading target "app/" "pages/")
    else if fw = "react-router" then
      jsStripPageSuffix (jsReplaceLeading target "app/" "app/routes/")
    else if fw = "laravel" then
      jsStripPageSuffix (jsReplaceLeading target "app/" "resources/js/pages/")
    else ""

/-- JS `p.replace(/^\/|\/$/g, "")`: that global regex removes exactly one
leading and one trailing slash (the two alternatives are anchored). -/
def jsTrimSlashes (s : String) : String :=
  let s1 := if strStartsWith s "/" then strDropLen s 1 else s
  if strEndsWith s1 "/" then strDropEndLen s1 1 else s1

/-- Source `resolveNestedFilePath(filePath, targetDir)` (lines 338-363). -/
def resolveNestedFilePath (filePath targetDir : String) : String :=
  let normalizedFilePath := jsTrimSlashes filePath
  let normalizedTargetDir := jsTrimSlashes targetDir
  let fileSegments := splitSlash normalizedFilePath
  let targetSegments := splitSlash normalizedTargetDir
  let lastTargetSegment := targetSegments.getLastD ""
  match fileSegments.findIdx? (fun s => s = lastTargetSegment) with
  | none => fileSegments.getLastD ""
  | some i => joinSlash (fileSegments.drop (i + 1))

/-- First match of the regex `/tiptap-templates\/([^/]+)\/(.*)/` in a
character list: scan left to right; at a position where the literal
`tiptap-templates/` matches, the capture needs a non-empty slash-free run
followed by `/`; otherwise the scan advances one character, exactly as the
regex engine does. -/
def templateMatchAux (pat : List Char) : List Char → Option (String × String)
  | [] => none
  | c :: cs =>
    if listLeads pat (c :: cs) then
      let after := (c :: cs).drop pat.length
      let name := after.takeWhile (fun ch => ch ≠ '/')
      let rest := after.drop (name.length + 1)
      if name ≠ [] ∧ after.drop name.length ≠ [] then some (⟨name⟩, ⟨rest⟩)
      else templateMatchAux pat cs
    else templateMatchAux pat cs

/-- `path.match(/tiptap-templates\/([^/]+)\/(.*)/)`: the two capture groups,
or `none` when the regex does not match.  The same function also decides
`path.match(/tiptap-templates\/([^/]+)\//)` (the trailing `(.*)` always
matches the empty remainder, so both regexes succeed at the same inputs with
the same first capture). -/
def templateMatch (s : String) : Option (String × String) :=
  templateMatchAux ("tiptap-templates/").data s.data

/-- Source `resolveFilePath(file, config, options)` (lines 365-464), with the
same first-match-wins branch order; a branch whose inner regex match fails
falls through to the later branches, as in the source. -/
def resolveFilePath (file : RegFile) (config : Config)
    (options : ResolveOptions) : String :=
  let tmplNoTarget : Option String :=
    if file.target = none ∧ strContains file.path "tiptap-templates/" = true ∧
        file.type ≠ "registry:page" then
      match templateMatch file.path with
      | some (templateName, relativePath) =>
        if strStartsWith relativePath "components/" then
          some (pathJoin [config.resolvedPaths.components, "tiptap-templates",
            templateName, jsReplaceFirst relativePath "components/" ""])
        else
          some (pathJoin [config.resolvedPaths.components, "tiptap-templates",
            templateName, relativePath])
      | none => none
    else none
  match tmplNoTarget with
  | some r => r
  | none =>
  let tmplData : Option String :=
    match file.target with
    | some t =>
      if strContains file.path "tiptap-templates/" = true ∧
          strContains t "/data/" = true then
        match templateMatch file.path with
        | some (templateName, _) =>
          some (pathJoin [config.resolvedPaths.components, "tiptap-templates",
            templateName, "data", ((jsSplitOnStr t "/data/").getD 1 "")])
        | none => none
      else none
    | none => none
  match tmplData with
  | some r => r
  | none =>
  match file.target with
  | some t =>
    if strStartsWith t "~/" then
      pathJoin [config.resolvedPaths.cwd, jsReplaceFirst t "~/" ""]
    else
      let target := if file.type = "registry:page"
        then resolvePageTarget t options.framework else t
      if file.type = "registry:page" ∧ target = "" then ""
      else if options.isSrcDir = some true then
        pathJoin [config.resolvedPaths.cwd, "src", jsReplaceFirst target "src/" ""]
      else
        pathJoin [config.resolvedPaths.cwd, jsReplaceFirst target "src/" ""]
  | none =>
    let targetDir := resolveFileTargetDirectory file config none
    let relativePath := resolveNestedFilePath file.path targetDir
    pathJoin [targetDir, relativePath]

/-- Lines 76-80 of the source: when the project is not configured for
TypeScript, `filePath.replace(/\.tsx?$/, ...)` downgrades a trailing `.tsx`
to `.jsx` and a trailing `.ts` to `.js`. -/
def downgradeScriptExtension (p : String) : String :=
  if strEndsWith p ".tsx" then strDropEndLen p 4 ++ ".jsx"
  else if strEndsWith p ".ts" then strDropEndLen p 3 ++ ".js"
  else p

/-! ## Source translation: the reconciliation engine (`updateFiles`)

The loop body of `updateFiles` (lines 55-149) is `processFile`; the loop is
`runFiles`.  Effects are explicit: the filesystem is a lookup structure, the
external transform pipeline is a function `tr` of the file's registry path
and raw content (the remaining transform inputs, `config` and `transformJsx`,
are fixed for the whole run), the interactive confirmation is an oracle, and
the two fallible filesystem calls (`fs.mkdir`, `fs.writeFile`) fail exactly
on the paths their failure predicates select, propagating the offending path
as the thrown error, as the un-caught `await` does in the source. -/

/-- The ambient collaborators of a run: project info (`getProjectInfo`), the
transform pipeline and the filesystem/prompt effects. -/
structure Env where
  isSrcDir : Option Bool
  framework : Option String
  tr : String → String → String
  confirmAnswer : String → Bool
  mkdirFails : String → Bool
  writeFails : String → Bool

/-- The filesystem: file contents by path, plus the set of directories. -/
structure FileSystem where
  files : List (String × String)
  dirs : List String
deriving DecidableEq, Repr

/-- `existsSync` + `readFile` for files: the visible content at `p`. -/
def fsGet (fs : FileSystem) (p : String) : Option String :=
  (fs.files.find? (fun e => e.1 = p)).map (fun e => e.2)

/-- All the directories `fs.mkdir(d, { recursive: true })` creates: every
ancestor prefix of `d`. -/
def ancestorDirs (d : String) : List String :=
  (((List.range (splitSlash d).length).map
    (fun i => joinSlash ((splitSlash d).take (i + 1))))).filter (fun s => s ≠ "")

/-- Effect of `fs.mkdir(d, { recursive: true })` on the directory set. -/
def mkdirRecursive (dirs : List String) (d : String) : List String :=
  dirs ++ ancestorDirs d

/-- The in-flight state of one `updateFiles` run: the three outcome lists,
the filesystem, and the observable write/prompt traces. -/
structure RunState where
  filesCreated : List String
  filesUpdated : List String
  filesSkipped : List String
  fs : FileSystem
  writes : List String
  prompts : List String
deriving DecidableEq, Repr

/-- Lines 140-148 of the source: ensure the target directory, write the file,
record the outcome.  A `mkdir` or `writeFile` failure throws the offending
path. -/
def writeStep (env : Env) (cwd targetDir filePath content : String)
    (existingFile : Bool) (st : RunState) : Except String RunState :=
  match (if st.fs.dirs.contains targetDir then Except.ok st
         else if env.mkdirFails targetDir then Except.error targetDir
         else Except.ok {st with
            fs := {st.fs with dirs := mkdirRecursive st.fs.dirs targetDir}}) with
  | Except.error e => Except.error e
  | Except.ok st1 =>
    if env.writeFails filePath then Except.error filePath
    else Except.ok {st1 with
      fs := {st1.fs with files := (filePath, content) :: st1.fs.files},
      writes := st1.writes ++ [filePath],
      filesUpdated := if existingFile
        then st1.filesUpdated ++ [pathRelative cwd filePath]
        else st1.filesUpdated,
      filesCreated := if existingFile then st1.filesCreated
        else st1.filesCreated ++ [pathRelative cwd filePath]}

/-- The `resolveFilePath` options `updateFiles` builds for one file
(lines 60-67). -/
def resolveOptionsFor (env : Env) (allPaths : List String)
    (file : RegFile) : ResolveOptions :=
  ⟨env.isSrcDir, some (findCommonRoot allPaths file.path), env.framework⟩

/-- The loop body of `updateFiles` for one file (lines 55-149). -/
def processFile (config : Config) (env : Env) (allPaths : List String)
    (opts : UpdateOptions) (st : RunState) (file : RegFile) :
    Except String RunState :=
  match file.content with
  | none => Except.ok st
  | some raw =>
    let filePath0 := resolveFilePath file config (resolveOptionsFor env allPaths file)
    if filePath0 = "" then Except.ok st
    else
      let fileName := pathBasename file.path
      let targetDir := pathDirname filePath0
      let filePath := if config.tsx then filePath0
        else downgradeScriptExtension filePath0
      let content := env.tr file.path raw
      match fsGet st.fs filePath with
      | some existingFileContent =>
        if getNormalizedFileContent existingFileContent
            = getNormalizedFileContent content then
          Except.ok {st with filesSkipped := st.filesSkipped ++
            [pathRelative config.resolvedPaths.cwd filePath]}
        else if opts.overwrite then
          writeStep env config.resolvedPaths.cwd targetDir filePath content true st
        else
          let st1 := {st with prompts := st.prompts ++ [fileName]}
          if env.confirmAnswer fileName then
            writeStep env config.resolvedPaths.cwd targetDir filePath content true st1
          else
            Except.ok {st1 with filesSkipped := st1.filesSkipped ++
              [pathRelative config.resolvedPaths.cwd filePath]}
      | none =>
        writeStep env config.resolvedPaths.cwd targetDir filePath content false st

/-- The sequential loop over the input files. -/
def runFiles (config : Config) (env : Env) (allPaths : List String)
    (opts : UpdateOptions) : List RegFile → RunState → Except String RunState
  | [], st => Except.ok st
  | f :: rest, st =>
    match processFile config env allPaths opts st f with
    | Except.error e => Except.error e
    | Except.ok st' => runFiles config env allPaths opts rest st'

/-- The value `updateFiles` returns, extended with the observable traces and
with `ranSummary`, which records whether the end-of-run summary block
(lines 151-205) was reached (the empty-batch early return skips it). -/
structure RunResult where
  filesCreated : List String
  filesUpdated : List String
  filesSkipped : List String
  fs : FileSystem
  writes : List String
  prompts : List String
  ranSummary : Bool
deriving DecidableEq, Repr

/-- Source `updateFiles(files, config, options)` (lines 20-212): empty or
absent batches return the empty manifest before any per-file work; otherwise
the files are processed strictly in order and the manifest is the final
accumulated state. -/
def updateFiles (files : Option (List RegFile)) (config : Config)
    (opts : UpdateOptions) (env : Env) (fs0 : FileSystem) :
    Except String RunResult :=
  match files with
  | none => Except.ok ⟨[], [], [], fs0, [], [], false⟩
  | some fl =>
    if fl.isEmpty then Except.ok ⟨[], [], [], fs0, [], [], false⟩
    else
      match runFiles config env (fl.map RegFile.path) opts fl
          ⟨[], [], [], fs0, [], []⟩ with
      | Except.error e => Except.error e
      | Except.ok st => Except.ok ⟨st.filesCreated, st.filesUpdated,
          st.filesSkipped, st.fs, st.writes, st.prompts, true⟩

/-- The transformed content the loop computes for a file. -/
def trContent (env : Env) (file : RegFile) : String :=
  env.tr file.path (file.content.getD "")

/-- The final on-disk path the loop associates to a file: `none` for files
with no content or whose resolution is empty, otherwise the resolved path
with the `tsx=false` extension downgrade applied. -/
def effectiveFilePath (config : Config) (env : Env) (allPaths : List String)
    (file : RegFile) : Option String :=
  match file.content with
  | none => none
  | some _ =>
    let p := resolveFilePath file config (resolveOptionsFor env allPaths file)
    if p = "" then none
    else some (if config.tsx then p else downgradeScriptExtension p)

/-! ## Specification-side definitions and concrete fixtures -/

/-- Specification-side description of `findCommonRoot`, transcribed from the
spec's algorithm paragraph: strip leading slashes, take the needle's
directory; if it is empty return `""`; otherwise return (with the leading
slash re-added) the longest segment prefix of the needle's directory that
some other normalized path extends past a `/`, computed here as
`Nat.findGreatest`; when no such prefix exists, fall back to the needle's
full immediate parent directory. -/
def commonRootSpec (paths : List String) (needle : String) : String :=
  let normalizedPaths := paths.map stripOneLeadingSlash
  let normalizedNeedle := stripOneLeadingSlash needle
  let needleDir := joinSlash ((splitSlash normalizedNeedle).dropLast)
  if needleDir = "" then ""
  else
    let segs := splitSlash needleDir
    let g := Nat.findGreatest
      (fun i => 0 < i ∧ normalizedPaths.any
        (fun p => p ≠ normalizedNeedle &&
          strStartsWith p (joinSlash (segs.take i) ++ "/")) = true)
      segs.length
    if g = 0 then "/" ++ needleDir else "/" ++ joinSlash (segs.take g)

/-- The per-file invariant behind idempotence: whatever content the
filesystem holds at the file's effective path normalizes to the file's
transformed content. -/
def GoodFile (config : Config) (env : Env) (allPaths : List String)
    (fs : FileSystem) (file : RegFile) : Prop :=
  ∀ p, effectiveFilePath config env allPaths file = some p →
    ∃ e, fsGet fs p = some e ∧
      getNormalizedFileContent e = getNormalizedFileContent (trContent env file)

/-- The three outcome lists a file can be recorded in. -/
inductive OutcomeKind
  | created
  | updated
  | skipped
deriving DecidableEq, Repr

/-- The entries a per-file tag list contributes to one outcome list, in input
order; `none` tags (excluded files) contribute nothing. -/
def kindEntries (k : OutcomeKind) (tags : List (Option (OutcomeKind × String))) :
    List String :=
  tags.filterMap (fun t => match t with
    | some (k', x) => if k' = k then some x else none
    | none => none)

/-- A concrete `resolvedPaths` table for witnesses and counterexamples. -/
def sampleResolvedPaths : ResolvedPaths :=
  ⟨"/proj", "/proj/components/tiptap-ui", "/proj/components/tiptap-ui-primitive",
   "/proj/components/tiptap-extension", "/proj/components/tiptap-node",
   "/proj/components/tiptap-icons", "/proj/hooks", "/proj/lib", "/proj/contexts",
   "/proj/components", "/proj/styles"⟩

/-- A concrete configuration (TypeScript project rooted at `/proj`). -/
def sampleConfig : Config := ⟨sampleResolvedPaths, true⟩

/-- A benign environment: identity transform, confirming prompt, no
filesystem failures. -/
def sampleEnv : Env :=
  ⟨some false, some "next-app", fun _ raw => raw, fun _ => true,
   fun _ => false, fun _ => false⟩

/-- An environment whose `fs.writeFile` fails exactly at `/proj/a.ts`. -/
def writeFailEnv : Env :=
  {sampleEnv with writeFails := fun p => p == "/proj/a.ts"}

/-- The empty filesystem. -/
def emptyFs : FileSystem := ⟨[], []⟩

/-- The empty run state over a given filesystem. -/
def initState (fs : FileSystem) : RunState := ⟨[], [], [], fs, [], []⟩

/-- The generic shape of the countdown search in `findCommonRoot`: the
largest `i` in `[1, n]` whose test succeeds, found by counting down. -/
def countdownAny (C : Nat → Bool) : Nat → Option Nat
  | 0 => none
  | Nat.succ i => if C (i + 1) then some (i + 1) else countdownAny C i

/-- A restatement of the loop body `processFile` through `effectiveFilePath`
(proved equal to `processFile` below), convenient for case analysis. -/
def processFileView (config : Config) (env : Env) (allPaths : List String)
    (opts : UpdateOptions) (st : RunState) (file : RegFile) :
    Except String RunState :=
  match effectiveFilePath config env allPaths file with
  | none => Except.ok st
  | some filePath =>
    let fileName := pathBasename file.path
    let targetDir := pathDirname
      (resolveFilePath file config (resolveOptionsFor env allPaths file))
    let content := trContent env file
    match fsGet st.fs filePath with
    | some existingFileContent =>
      if getNormalizedFileContent existingFileContent
          = getNormalizedFileContent content then
        Except.ok {st with filesSkipped := st.filesSkipped ++
          [pathRelative config.resolvedPaths.cwd filePath]}
      else if opts.overwrite then
        writeStep env config.resolvedPaths.cwd targetDir filePath content true st
      else
        let st1 := {st with prompts := st.prompts ++ [fileName]}
        if env.confirmAnswer fileName then
          writeStep env config.resolvedPaths.cwd targetDir filePath content true st1
        else
          Except.ok {st1 with filesSkipped := st1.filesSkipped ++
            [pathRelative config.resolvedPaths.cwd filePath]}
    | none =>
      writeStep env config.resolvedPaths.cwd targetDir filePath content false st

/-- The `skipped` entry a file would contribute: its effective path made
project-relative. -/
def skippedEntry (config : Config) (env : Env) (allPaths : List String)
    (f : RegFile) : Option String :=
  (effectiveFilePath config env allPaths f).map
    (pathRelative config.resolvedPaths.cwd)

/-! ## Basic facts about the string models -/

theorem listLeads_append_self (p r : List Char) : listLeads p (p ++ r) = true := by
  induction p with
  | nil => rfl
  | cons a as ih => simp [listLeads, ih]


theorem listLeads_take_drop (p l m : List Char) :
    listLeads p (l ++ m)
      = (listLeads (p.take l.length) l && listLeads (p.drop l.length) m) := by
  induction p generalizing l with
  | nil => simp [listLeads]
  | cons a as ih =>
    cases l with
    | nil => simp [listLeads]
    | cons b bs =>
      simp only [List.cons_append, listLeads, List.length_cons,
        List.take_succ_cons, List.drop_succ_cons, List.append_eq]
      rw [ih, Bool.and_assoc]

theorem strStartsWith_append_self (a b : String) : strStartsWith (a ++ b) a = true := by
  simp [strStartsWith, String.data_append, listLeads_append_self]

theorem strDropLen_append (a b : String) (n : Nat) (h : n = a.data.length) :
    strDropLen (a ++ b) n = b := by
  simp [strDropLen, String.data_append, h, List.drop_left]

theorem jsReplaceLeading_append (old new rest : String) :
    jsReplaceLeading (old ++ rest) old new = new ++ rest := by
  rw [jsReplaceLeading, strStartsWith_append_self, if_pos rfl,
    strDropLen_append old rest _ rfl]

theorem strEndsWith_append_self (a b : String) : strEndsWith (a ++ b) b = true := by
  simp [strEndsWith, String.data_append, List.reverse_append, listLeads_append_self]

theorem strEndsWith_append_false (a b pat : String)
    (h : listLeads (pat.data.reverse.take b.data.length) b.data.reverse = false) :
    strEndsWith (a ++ b) pat = false := by
  simp only [strEndsWith, String.data_append, List.reverse_append]
  rw [listLeads_take_drop]
  simp only [List.length_reverse]
  rw [h, Bool.false_and]

theorem strDropEndLen_append (a b : String) (n : Nat) (h : n = b.data.length) :
    strDropEndLen (a ++ b) n = a := by
  simp only [strDropEndLen, String.data_append, List.reverse_append]
  rw [h, ← List.length_reverse b.data, List.drop_left, List.reverse_reverse]

theorem jsStripPageSuffix_append (pre ext : String)
    (h : ext ∈ ([".js", ".jsx", ".ts", ".tsx"] : List String)) :
    jsStripPageSuffix (pre ++ ("/page" ++ ext)) = pre ++ ext := by
  simp only [List.mem_cons, List.not_mem_nil, or_false] at h
  rcases h with rfl | rfl | rfl | rfl
  · have e : ("/page" : String) ++ ".js" = "/page.js" := rfl
    rw [e, jsStripPageSuffix, strEndsWith_append_self, if_pos rfl,
      strDropEndLen_append _ _ _ (by rfl)]
  · have e : ("/page" : String) ++ ".jsx" = "/page.jsx" := rfl
    rw [e, jsStripPageSuffix,
      strEndsWith_append_false _ _ _ (by decide), if_neg (by simp),
      strEndsWith_append_self, if_pos rfl, strDropEndLen_append _ _ _ (by rfl)]
  · have e : ("/page" : String) ++ ".ts" = "/page.ts" := rfl
    rw [e, jsStripPageSuffix,
      strEndsWith_append_false _ _ _ (by decide), if_neg (by simp),
      strEndsWith_append_false _ _ _ (by decide), if_neg (by simp),
      strEndsWith_append_self, if_pos rfl, strDropEndLen_append _ _ _ (by rfl)]
  · have e : ("/page" : String) ++ ".tsx" = "/page.tsx" := rfl
    rw [e, jsStripPageSuffix,
      strEndsWith_append_false _ _ _ (by decide), if_neg (by simp),
      strEndsWith_append_false _ _ _ (by decide), if_neg (by simp),
      strEndsWith_append_false _ _ _ (by decide), if_neg (by simp),
      strEndsWith_append_self, if_pos rfl, strDropEndLen_append _ _ _ (by rfl)]

/-! ## C3: route target rewriting -/

/-- C3.  Route target rewriting: on every target of the shape
`app/<segments>/page.<ext>` (with one of the four script extensions the
`[jt]sx?` character class admits), `resolvePageTarget` leaves the target
unchanged for `next-app`, rewrites `app/` to `pages/` and strips the
trailing `/page` for `next-pages`, rewrites `app/` to `app/routes/` and
strips `/page` for `react-router`, rewrites `app/` to `resources/js/pages/`
and strips `/page` for `laravel`, and returns `""` for an absent or unknown
framework (on any target at all). -/
theorem resolvePageTarget_route_rewrites (segs ext t fw : String)
    (hext : ext ∈ ([".js", ".jsx", ".ts", ".tsx"] : List String))
    (hfw : fw ∉ (["next-app", "next-pages", "react-router", "laravel"] : List String)) :
    resolvePageTarget ("app/" ++ (segs ++ ("/page" ++ ext))) (some "next-app")
      = "app/" ++ (segs ++ ("/page" ++ ext)) ∧
    resolvePageTarget ("app/" ++ (segs ++ ("/page" ++ ext))) (some "next-pages")
      = ("pages/" ++ segs) ++ ext ∧
    resolvePageTarget ("app/" ++ (segs ++ ("/page" ++ ext))) (some "react-router")
      = ("app/routes/" ++ segs) ++ ext ∧
    resolvePageTarget ("app/" ++ (segs ++ ("/page" ++ ext))) (some "laravel")
      = ("resources/js/pages/" ++ segs) ++ ext ∧
    resolvePageTarget t none = "" ∧
    resolvePageTarget t (some fw) = "" := by
  have hnp : ∀ s, resolvePageTarget s (some "next-pages")
      = jsStripPageSuffix (jsReplaceLeading s "app/" "pages/") := fun s => rfl
  have hrr : ∀ s, resolvePageTarget s (some "react-router")
      = jsStripPageSuffix (jsReplaceLeading s "app/" "app/routes/") := fun s => rfl
  have hlv : ∀ s, resolvePageTarget s (some "laravel")
      = jsStripPageSuffix (jsReplaceLeading s "app/" "resources/js/pages/") :=
    fun s => rfl
  simp only [List.mem_cons, List.not_mem_nil, or_false, not_or] at hfw
  obtain ⟨h1, h2, h3, h4⟩ := hfw
  refine ⟨rfl, ?_, ?_, ?_, rfl, ?_⟩
  · rw [hnp, jsReplaceLeading_append, ← String.append_assoc,
      jsStripPageSuffix_append _ _ hext]
  · rw [hrr, jsReplaceLeading_append, ← String.append_assoc,
      jsStripPageSuffix_append _ _ hext]
  · rw [hlv, jsReplaceLeading_append, ← String.append_assoc,
      jsStripPageSuffix_append _ _ hext]
  · simp [resolvePageTarget, h1, h2, h3, h4]

/-- Witness for C3 at the spec's own example: `app/settings/page.tsx` under
`next-pages` rewrites to `pages/settings.tsx`, and an unknown framework
yields the empty string. -/
theorem resolvePageTarget_route_rewrites_witness :
    resolvePageTarget ("app/" ++ ("settings" ++ ("/page" ++ ".tsx")))
      (some "next-pages") = ("pages/" ++ "settings") ++ ".tsx" ∧
    resolvePageTarget "app/settings/page.tsx" (some "vite") = "" := by
  have h := resolvePageTarget_route_rewrites "settings" ".tsx"
    "app/settings/page.tsx" "vite" (by decide) (by decide)
  exact ⟨h.2.1, h.2.2.2.2.2⟩

/-! ## C9: `commonRoot` does not influence path resolution -/

/-- C9 (implicit).  For any two option records that agree on `isSrcDir` and
`framework` but differ arbitrarily in `commonRoot`, `resolveFilePath` returns
the same result; in particular the common-root value `updateFiles` computes
per file never changes any resolved path. -/
theorem resolveFilePath_ignores_commonRoot (file : RegFile) (config : Config)
    (o1 o2 : ResolveOptions) (hs : o1.isSrcDir = o2.isSrcDir)
    (hf : o1.framework = o2.framework) :
    resolveFilePath file config o1 = resolveFilePath file config o2 := by
  obtain ⟨s1, c1, f1⟩ := o1
  obtain ⟨s2, c2, f2⟩ := o2
  replace hs : s1 = s2 := hs
  replace hf : f1 = f2 := hf
  subst hs; subst hf
  rfl

/-- Witness for C9: two option records differing only in `commonRoot`. -/
theorem resolveFilePath_ignores_commonRoot_witness :
    resolveFilePath ⟨"a.ts", "registry:lib", some "src/a.ts", some "x"⟩
      sampleConfig ⟨some true, some "/a", some "next-app"⟩
      = resolveFilePath ⟨"a.ts", "registry:lib", some "src/a.ts", some "x"⟩
        sampleConfig ⟨some true, some "/b", some "next-app"⟩ :=
  resolveFilePath_ignores_commonRoot _ _ _ _ rfl rfl

/-! ## C10: empty batch -/

/-- C10 (implicit).  An absent or empty file list yields the empty manifest:
all three lists empty, the filesystem untouched, no write, no prompt, and the
end-of-run summary block never reached — independently of the environment,
so no path is ever resolved. -/
theorem updateFiles_empty_batch (config : Config) (opts : UpdateOptions)
    (env : Env) (fs0 : FileSystem) :
    updateFiles none config opts env fs0
      = Except.ok ⟨[], [], [], fs0, [], [], false⟩ ∧
    updateFiles (some []) config opts env fs0
      = Except.ok ⟨[], [], [], fs0, [], [], false⟩ :=
  ⟨rfl, rfl⟩

/-! ## C4: common-root inference -/

theorem countdownAny_eq_findGreatest (P : Nat → Prop) [DecidablePred P]
    (C : Nat → Bool) (hPC : ∀ i, P i ↔ (0 < i ∧ C i = true)) (n : Nat) :
    countdownAny C n
      = (if Nat.findGreatest P n = 0 then none
         else some (Nat.findGreatest P n)) := by
  induction n with
  | zero => rfl
  | succ n ih =>
    simp only [countdownAny, Nat.findGreatest_succ]
    by_cases hc : C (n + 1) = true
    · have hp : P (n + 1) := (hPC _).mpr ⟨n.succ_pos, hc⟩
      rw [if_pos hc, if_pos hp, if_neg n.succ_ne_zero]
    · have hp : ¬P (n + 1) := fun h => hc ((hPC _).mp h).2
      rw [if_neg hc, if_neg hp, ih]

theorem findCommonRootLoop_eq_countdown (normalizedPaths : List String)
    (nn : String) (segs : List String) (n : Nat) :
    findCommonRootLoop normalizedPaths nn segs n
      = (countdownAny (fun i => normalizedPaths.any
          (fun p => p ≠ nn && strStartsWith p (joinSlash (segs.take i) ++ "/"))) n).map
          (fun g => "/" ++ joinSlash (segs.take g)) := by
  induction n with
  | zero => rfl
  | succ n ih =>
    simp only [findCommonRootLoop, countdownAny]
    by_cases hc : normalizedPaths.any
        (fun p => p ≠ nn && strStartsWith p (joinSlash (segs.take (n + 1)) ++ "/")) = true
    · rw [if_pos hc, if_pos hc]
      rfl
    · rw [if_neg hc, if_neg hc, ih]

/-- C4.  `findCommonRoot` computes exactly the spec's description
(`commonRootSpec`): the empty string when the needle has no directory
segment, otherwise the longest prefix of the needle's directory segments
that some other path in the list extends past a `/` (searched from the full
directory, shrinking one segment at a time, leading slash re-added), falling
back to the needle's full immediate parent directory when no other sibling
shares any prefix — in particular for a singleton list. -/
theorem findCommonRoot_matches_spec (paths : List String) (needle : String)
    (_h : needle ∈ paths) :
    findCommonRoot paths needle = commonRootSpec paths needle := by
  unfold findCommonRoot commonRootSpec
  by_cases hd : joinSlash ((splitSlash (stripOneLeadingSlash needle)).dropLast) = ""
  · simp [hd]
  · simp only [hd, if_neg, if_false]
    rw [findCommonRootLoop_eq_countdown,
      countdownAny_eq_findGreatest
        (fun i => 0 < i ∧ (paths.map stripOneLeadingSlash).any
          (fun p => p ≠ stripOneLeadingSlash needle &&
            strStartsWith p (joinSlash ((splitSlash (joinSlash ((splitSlash
              (stripOneLeadingSlash needle)).dropLast))).take i) ++ "/")) = true)
        _ (fun i => Iff.rfl)]
    rcases Nat.eq_zero_or_pos (Nat.findGreatest
        (fun i => 0 < i ∧ (paths.map stripOneLeadingSlash).any
          (fun p => p ≠ stripOneLeadingSlash needle &&
            strStartsWith p (joinSlash ((splitSlash (joinSlash ((splitSlash
              (stripOneLeadingSlash needle)).dropLast))).take i) ++ "/")) = true)
        (splitSlash (joinSlash ((splitSlash
          (stripOneLeadingSlash needle)).dropLast))).length) with hg | hg
    · rw [if_pos hg, if_pos hg]
      rfl
    · have hne := Nat.pos_iff_ne_zero.mp hg
      rw [if_neg hne, if_neg hne]
      rfl

/-- Witness for C4: a two-file component sharing a directory, with the
needle a member of the list. -/
theorem findCommonRoot_matches_spec_witness :
    ("tiptap-ui/a/b.tsx" : String)
        ∈ (["tiptap-ui/a/b.tsx", "tiptap-ui/a/c.tsx"] : List String) ∧
    findCommonRoot ["tiptap-ui/a/b.tsx", "tiptap-ui/a/c.tsx"] "tiptap-ui/a/b.tsx"
      = commonRootSpec ["tiptap-ui/a/b.tsx", "tiptap-ui/a/c.tsx"]
          "tiptap-ui/a/b.tsx" :=
  ⟨by decide, findCommonRoot_matches_spec _ _ (by decide)⟩

/-! ## C5: explicit-target `src/` normalization -/

theorem replaceFirstAux_leading (pat repl rest : List Char) (hne : pat ≠ []) :
    replaceFirstAux pat repl (pat ++ rest) = repl ++ rest := by
  cases pat with
  | nil => exact absurd rfl hne
  | cons p ps =>
    show replaceFirstAux (p :: ps) repl (p :: (ps ++ rest)) = repl ++ rest
    rw [replaceFirstAux]
    rw [show p :: (ps ++ rest) = (p :: ps) ++ rest from rfl,
      listLeads_append_self, if_pos rfl, List.drop_left]

theorem jsReplaceFirst_append_self (pat rest repl : String) (hne : pat.data ≠ []) :
    jsReplaceFirst (pat ++ rest) pat repl = repl ++ rest := by
  apply String.ext
  show replaceFirstAux pat.data repl.data (pat ++ rest).data = (repl ++ rest).data
  rw [String.data_append, String.data_append,
    replaceFirstAux_leading pat.data repl.data rest.data hne]

theorem replaceFirstAux_of_no_occurrence (pat repl l : List Char)
    (h : subOccurs pat l = false) : replaceFirstAux pat repl l = l := by
  induction l with
  | nil => rfl
  | cons c cs ih =>
    rw [subOccurs, Bool.or_eq_false_iff] at h
    rw [replaceFirstAux, if_neg (by simp [h.1]), ih h.2]

theorem jsReplaceFirst_of_not_contains (s pat repl : String)
    (h : strContains s pat = false) : jsReplaceFirst s pat repl = s := by
  apply String.ext
  show replaceFirstAux pat.data repl.data s.data = s.data
  exact replaceFirstAux_of_no_occurrence _ _ _ h

/-- The explicit-target branch of `resolveFilePath` (source lines 441-458),
in full generality: any file with an explicit non-`~/` target that does not
take the template-data branch — because its path does not mention
`tiptap-templates/`, or its target has no `/data/` segment, or the template
regex fails — reaches the general join; a page-kind file first has its
target rewritten by `resolvePageTarget`, and proceeds when the rewrite is
non-empty.  The result joins `cwd` (with `src` interposed for src-dir
projects) after `target.replace("src/", "")` on the (possibly rewritten)
target. -/
theorem resolveFilePath_explicit_target (file : RegFile) (config : Config)
    (options : ResolveOptions) (t : String)
    (ht : file.target = some t)
    (hnd : strContains file.path "tiptap-templates/" = false ∨
      strContains t "/data/" = false ∨ templateMatch file.path = none)
    (hns : strStartsWith t "~/" = false)
    (hpage : file.type = "registry:page" →
      resolvePageTarget t options.framework ≠ "") :
    resolveFilePath file config options
      = (if options.isSrcDir = some true
         then pathJoin [config.resolvedPaths.cwd, "src",
           jsReplaceFirst (if file.type = "registry:page"
             then resolvePageTarget t options.framework else t) "src/" ""]
         else pathJoin [config.resolvedPaths.cwd,
           jsReplaceFirst (if file.type = "registry:page"
             then resolvePageTarget t options.framework else t) "src/" ""]) := by
  unfold resolveFilePath
  rw [ht]
  by_cases hty : file.type = "registry:page"
  · have hne := hpage hty
    rcases hnd with h | h | h
    · simp [h, hns, hty, hne]
    · simp [h, hns, hty, hne]
    · simp [h, hns, hty, hne]
  · rcases hnd with h | h | h
    · simp [h, hns, hty]
    · simp [h, hns, hty]
    · simp [h, hns, hty]

/-- C5 counterexample: the claim predicts that a non-leading `src/` in an
explicit target is preserved, but the source's `target.replace("src/", "")`
removes the first occurrence anywhere: for target
`components/src/button.tsx` (no src-dir) the code produces
`/proj/components/button.tsx`, not the claim's
`/proj/components/src/button.tsx`. -/
theorem resolveFilePath_src_strip_cex :
    resolveFilePath
        ⟨"button.tsx", "registry:component", some "components/src/button.tsx",
          some "x"⟩
        sampleConfig ⟨some false, some "", none⟩
      = "/proj/components/button.tsx" ∧
    ("/proj/components/button.tsx" : String) ≠ "/proj/components/src/button.tsx" :=
  ⟨rfl, by decide⟩

/-- C5 (amended).  For every file with an explicit target that does not
start with `~/` and does not take the template-data branch (path without
`tiptap-templates/`, or target without `/data/`, or failing template regex)
— for page-kind files using the successfully rewritten route target —
`resolveFilePath` joins `cwd` (plus `src` when the project uses a src
directory) with the target from which the FIRST occurrence of `"src/"` —
leading or not — has been removed; a leading `"src/"` prefix is stripped,
and a target with no `"src/"` occurrence at all is preserved verbatim. -/
theorem resolveFilePath_src_replacement (file : RegFile) (config : Config)
    (options : ResolveOptions) (t : String)
    (ht : file.target = some t)
    (hnd : strContains file.path "tiptap-templates/" = false ∨
      strContains t "/data/" = false ∨ templateMatch file.path = none)
    (hns : strStartsWith t "~/" = false)
    (hpage : file.type = "registry:page" →
      resolvePageTarget t options.framework ≠ "") :
    resolveFilePath file config options
      = (if options.isSrcDir = some true
         then pathJoin [config.resolvedPaths.cwd, "src",
           jsReplaceFirst (if file.type = "registry:page"
             then resolvePageTarget t options.framework else t) "src/" ""]
         else pathJoin [config.resolvedPaths.cwd,
           jsReplaceFirst (if file.type = "registry:page"
             then resolvePageTarget t options.framework else t) "src/" ""]) ∧
    (∀ rest : String, jsReplaceFirst ("src/" ++ rest) "src/" "" = rest) ∧
    (∀ s : String, strContains s "src/" = false →
      jsReplaceFirst s "src/" "" = s) := by
  refine ⟨resolveFilePath_explicit_target file config options t ht hnd hns hpage,
    ?_, ?_⟩
  · intro rest
    exact jsReplaceFirst_append_self "src/" rest "" (by decide)
  · intro s hs
    exact jsReplaceFirst_of_not_contains s "src/" "" hs

/-- Witness for the amended C5: a page file in a src-dir project whose
target `app/settings/page.tsx` is successfully rewritten for `next-pages`
and then joined under `/proj/src`. -/
theorem resolveFilePath_src_replacement_witness :
    resolveFilePath
        ⟨"page.tsx", "registry:page", some "app/settings/page.tsx", some "x"⟩
        ⟨sampleResolvedPaths, true⟩ ⟨some true, some "", some "next-pages"⟩
      = (if (some true : Option Bool) = some true
         then pathJoin ["/proj", "src",
           jsReplaceFirst (if ("registry:page" : String) = "registry:page"
             then resolvePageTarget "app/settings/page.tsx" (some "next-pages")
             else "app/settings/page.tsx") "src/" ""]
         else pathJoin ["/proj",
           jsReplaceFirst (if ("registry:page" : String) = "registry:page"
             then resolvePageTarget "app/settings/page.tsx" (some "next-pages")
             else "app/settings/page.tsx") "src/" ""]) :=
  (resolveFilePath_src_replacement
    ⟨"page.tsx", "registry:page", some "app/settings/page.tsx", some "x"⟩
    ⟨sampleResolvedPaths, true⟩ ⟨some true, some "", some "next-pages"⟩
    "app/settings/page.tsx"
    rfl (Or.inl (by decide)) (by decide) (fun _ => by decide)).1

/-! ## The loop body through `effectiveFilePath` -/

theorem processFile_eq_view (config : Config) (env : Env)
    (allPaths : List String) (opts : UpdateOptions) (st : RunState)
    (file : RegFile) :
    processFile config env allPaths opts st file
      = processFileView config env allPaths opts st file := by
  unfold processFile processFileView effectiveFilePath trContent
  cases hc : file.content with
  | none => rfl
  | some raw =>
    by_cases h0 : resolveFilePath file config (resolveOptionsFor env allPaths file) = ""
    · simp [h0]
    · simp [h0]

theorem processFile_noop (config : Config) (env : Env) (allPaths : List String)
    (opts : UpdateOptions) (st : RunState) (file : RegFile)
    (hp : effectiveFilePath config env allPaths file = none) :
    processFile config env allPaths opts st file = Except.ok st := by
  rw [processFile_eq_view]
  unfold processFileView
  rw [hp]

theorem processFile_skip_of_equal (config : Config) (env : Env)
    (allPaths : List String) (opts : UpdateOptions) (st : RunState)
    (file : RegFile) (p e : String)
    (hp : effectiveFilePath config env allPaths file = some p)
    (he : fsGet st.fs p = some e)
    (heq : getNormalizedFileContent e
      = getNormalizedFileContent (trContent env file)) :
    processFile config env allPaths opts st file
      = Except.ok {st with filesSkipped := st.filesSkipped ++
          [pathRelative config.resolvedPaths.cwd p]} := by
  rw [processFile_eq_view]
  unfold processFileView
  rw [hp]
  simp [he, heq]

/-! ## C6: unchanged content is skipped without touching anything -/

/-- C6.  When the resolved path of a file names an existing file whose
content equals the transformed new content after normalization (CRLF→LF plus
trimming — in particular `"a\r\nb\r\n"` and `"a\nb"` normalize equal), the
loop body records the file as skipped and changes nothing else: no write, no
prompt, and the filesystem — hence the file on disk — is untouched (every
field of the state except `filesSkipped` is preserved verbatim). -/
theorem processFile_skip_unchanged (config : Config) (env : Env)
    (allPaths : List String) (opts : UpdateOptions) (st : RunState)
    (file : RegFile) (p e : String)
    (hp : effectiveFilePath config env allPaths file = some p)
    (he : fsGet st.fs p = some e)
    (heq : getNormalizedFileContent e
      = getNormalizedFileContent (trContent env file)) :
    processFile config env allPaths opts st file
      = Except.ok {st with filesSkipped := st.filesSkipped ++
          [pathRelative config.resolvedPaths.cwd p]} ∧
    getNormalizedFileContent "a\r\nb\r\n" = getNormalizedFileContent "a\nb" :=
  ⟨processFile_skip_of_equal config env allPaths opts st file p e hp he heq, rfl⟩

/-- Witness for C6: an existing `/proj/button.tsx` holding `"hello\r\n"`
against incoming content `"hello"` is skipped. -/
theorem processFile_skip_unchanged_witness :
    processFile sampleConfig sampleEnv ["button.tsx"] ⟨false, false, false⟩
        (initState ⟨[("/proj/button.tsx", "hello\r\n")], []⟩)
        ⟨"button.tsx", "registry:component", some "~/button.tsx", some "hello"⟩
      = Except.ok {initState ⟨[("/proj/button.tsx", "hello\r\n")], []⟩ with
          filesSkipped :=
            (initState ⟨[("/proj/button.tsx", "hello\r\n")], []⟩).filesSkipped
              ++ [pathRelative sampleConfig.resolvedPaths.cwd "/proj/button.tsx"]} ∧
    getNormalizedFileContent "a\r\nb\r\n" = getNormalizedFileContent "a\nb" :=
  processFile_skip_unchanged _ _ _ _ _ _ _ _ rfl rfl rfl

/-! ## C7: silent exclusion -/

/-- C7.  A file with no content, and a file whose path resolution yields the
empty string (e.g. a page file under an unknown framework), is excluded
silently: the loop body returns the state unchanged, so nothing is written
and the file appears in none of the three outcome lists. -/
theorem processFile_silent_exclusion (config : Config) (env : Env)
    (allPaths : List String) (opts : UpdateOptions) (st : RunState)
    (file : RegFile) :
    (file.content = none →
      processFile config env allPaths opts st file = Except.ok st) ∧
    (∀ raw, file.content = some raw →
      resolveFilePath file config (resolveOptionsFor env allPaths file) = "" →
      processFile config env allPaths opts st file = Except.ok st) := by
  constructor
  · intro hc
    exact processFile_noop _ _ _ _ _ _ (by simp [effectiveFilePath, hc])
  · intro raw hc h0
    exact processFile_noop _ _ _ _ _ _ (by simp [effectiveFilePath, hc, h0])

/-- Witness for C7: a metadata-only file (no content), and a page file with
an explicit target under an absent framework. -/
theorem processFile_silent_exclusion_witness :
    processFile sampleConfig sampleEnv ["meta.json"] ⟨false, false, false⟩
        (initState emptyFs) ⟨"meta.json", "registry:lib", none, none⟩
      = Except.ok (initState emptyFs) ∧
    processFile sampleConfig
        ⟨some false, none, fun _ raw => raw, fun _ => true,
          fun _ => false, fun _ => false⟩
        ["page.tsx"] ⟨false, false, false⟩ (initState emptyFs)
        ⟨"page.tsx", "registry:page", some "app/settings/page.tsx", some "x"⟩
      = Except.ok (initState emptyFs) :=
  ⟨(processFile_silent_exclusion _ _ _ _ _ _).1 rfl,
   (processFile_silent_exclusion _ _ _ _ _ _).2 "x" rfl rfl⟩

/-! ## C2: write failures abort the whole batch -/

/-- C2 counterexample: with `fs.writeFile` failing at `/proj/a.ts`, a batch
of two files aborts on the first file — `updateFiles` returns the error and
produces no manifest at all, so the second file is neither processed nor
covered; processed alone, that same second file would have been written and
recorded as created. -/
theorem updateFiles_failure_not_isolated_cex :
    updateFiles (some [⟨"a.ts", "registry:lib", some "~/a.ts", some "A"⟩,
        ⟨"b.ts", "registry:lib", some "~/b.ts", some "B"⟩])
      sampleConfig ⟨true, false, false⟩ writeFailEnv emptyFs
      = Except.error "/proj/a.ts" ∧
    updateFiles (some [⟨"b.ts", "registry:lib", some "~/b.ts", some "B"⟩])
      sampleConfig ⟨true, false, false⟩ writeFailEnv emptyFs
      = Except.ok ⟨["b.ts"], [], [],
          ⟨[("/proj/b.ts", "B")], ["/proj"]⟩, ["/proj/b.ts"], [], true⟩ :=
  ⟨rfl, rfl⟩

/-- C2 (amended).  A directory-creation or write failure for one file is
propagated as a thrown error that aborts the whole run: when the loop body
fails on a file, the loop over that file and all remaining files returns the
error, so no remaining file is processed and no manifest is produced. -/
theorem processFile_error_aborts_run (config : Config) (env : Env)
    (allPaths : List String) (opts : UpdateOptions) (st : RunState)
    (file : RegFile) (e : String) (rest : List RegFile)
    (h : processFile config env allPaths opts st file = Except.error e) :
    runFiles config env allPaths opts (file :: rest) st = Except.error e := by
  unfold runFiles
  rw [h]

/-- Witness for the amended C2: the failing two-file batch aborts with the
offending path. -/
theorem processFile_error_aborts_run_witness :
    runFiles sampleConfig writeFailEnv ["a.ts", "b.ts"] ⟨true, false, false⟩
        [⟨"a.ts", "registry:lib", some "~/a.ts", some "A"⟩,
         ⟨"b.ts", "registry:lib", some "~/b.ts", some "B"⟩]
        (initState emptyFs)
      = Except.error "/proj/a.ts" :=
  processFile_error_aborts_run _ _ _ _ _ _ _ _ rfl

/-! ## Case analysis of the loop body -/

theorem mkdirStep_ok (env : Env) (targetDir : String) (st st1 : RunState)
    (h : (if st.fs.dirs.contains targetDir then Except.ok st
          else if env.mkdirFails targetDir then Except.error targetDir
          else Except.ok {st with fs := {st.fs with
            dirs := mkdirRecursive st.fs.dirs targetDir}}) = Except.ok st1) :
    st1.filesCreated = st.filesCreated ∧ st1.filesUpdated = st.filesUpdated ∧
    st1.filesSkipped = st.filesSkipped ∧ st1.fs.files = st.fs.files ∧
    st1.writes = st.writes ∧ st1.prompts = st.prompts := by
  split at h
  · cases h
    exact ⟨rfl, rfl, rfl, rfl, rfl, rfl⟩
  · split at h
    · cases h
    · cases h
      exact ⟨rfl, rfl, rfl, rfl, rfl, rfl⟩

theorem writeStep_ok_cases (env : Env)
    (cwd targetDir filePath content : String) (existing : Bool)
    (st st' : RunState)
    (h : writeStep env cwd targetDir filePath content existing st
      = Except.ok st') :
    st'.fs.files = (filePath, content) :: st.fs.files ∧
    st'.writes = st.writes ++ [filePath] ∧
    st'.filesSkipped = st.filesSkipped ∧
    st'.prompts = st.prompts ∧
    ((existing = true ∧
      st'.filesUpdated = st.filesUpdated ++ [pathRelative cwd filePath] ∧
      st'.filesCreated = st.filesCreated) ∨
     (existing = false ∧
      st'.filesCreated = st.filesCreated ++ [pathRelative cwd filePath] ∧
      st'.filesUpdated = st.filesUpdated)) := by
  unfold writeStep at h
  split at h
  · cases h
  next st1 heq =>
    have hd := mkdirStep_ok env targetDir st st1 heq
    obtain ⟨d1, d2, d3, d4, d5, d6⟩ := hd
    split at h
    · cases h
    · cases h
      cases existing
      · exact ⟨by simp [d4], by simp [d5], by simp [d3], by simp [d6],
          Or.inr ⟨rfl, by simp [d1], by simp [d2]⟩⟩
      · exact ⟨by simp [d4], by simp [d5], by simp [d3], by simp [d6],
          Or.inl ⟨rfl, by simp [d2], by simp [d1]⟩⟩

theorem processFile_ok_cases (config : Config) (env : Env)
    (allPaths : List String) (opts : UpdateOptions) (st : RunState)
    (file : RegFile) (st' : RunState)
    (h : processFile config env allPaths opts st file = Except.ok st') :
    (effectiveFilePath config env allPaths file = none ∧ st' = st) ∨
    (∃ p, effectiveFilePath config env allPaths file = some p ∧
      ((∃ e, fsGet st.fs p = some e ∧
          getNormalizedFileContent e
            = getNormalizedFileContent (trContent env file) ∧
          st' = {st with filesSkipped := st.filesSkipped ++
            [pathRelative config.resolvedPaths.cwd p]}) ∨
       (opts.overwrite = false ∧
          st' = {st with
            prompts := st.prompts ++ [pathBasename file.path],
            filesSkipped := st.filesSkipped ++
              [pathRelative config.resolvedPaths.cwd p]}) ∨
       (st'.fs.files = (p, trContent env file) :: st.fs.files ∧
        st'.writes = st.writes ++ [p] ∧
        st'.filesSkipped = st.filesSkipped ∧
        ((st'.filesUpdated = st.filesUpdated ++
            [pathRelative config.resolvedPaths.cwd p] ∧
          st'.filesCreated = st.filesCreated) ∨
         (st'.filesCreated = st.filesCreated ++
            [pathRelative config.resolvedPaths.cwd p] ∧
          st'.filesUpdated = st.filesUpdated))))) := by
  rw [processFile_eq_view] at h
  cases hp : effectiveFilePath config env allPaths file with
  | none =>
    left
    refine ⟨rfl, ?_⟩
    simp only [processFileView, hp] at h
    cases h
    rfl
  | some p =>
    right
    refine ⟨p, rfl, ?_⟩
    simp only [processFileView, hp] at h
    cases hf : fsGet st.fs p with
    | some e =>
      simp only [hf] at h
      by_cases heq : getNormalizedFileContent e
          = getNormalizedFileContent (trContent env file)
      · rw [if_pos heq] at h
        cases h
        exact Or.inl ⟨e, rfl, heq, rfl⟩
      · rw [if_neg heq] at h
        by_cases hov : opts.overwrite = true
        · rw [if_pos hov] at h
          obtain ⟨w1, w2, w3, w4, w5⟩ := writeStep_ok_cases _ _ _ _ _ _ _ _ h
          refine Or.inr (Or.inr ⟨w1, w2, w3, ?_⟩)
          rcases w5 with ⟨_, hu, hc⟩ | ⟨hfalse, _, _⟩
          · exact Or.inl ⟨hu, hc⟩
          · cases hfalse
        · rw [if_neg hov] at h
          by_cases hcf : env.confirmAnswer (pathBasename file.path) = true
          · rw [if_pos hcf] at h
            obtain ⟨w1, w2, w3, w4, w5⟩ := writeStep_ok_cases _ _ _ _ _ _ _ _ h
            refine Or.inr (Or.inr ⟨w1, w2, w3, ?_⟩)
            rcases w5 with ⟨_, hu, hc⟩ | ⟨hfalse, _, _⟩
            · exact Or.inl ⟨hu, hc⟩
            · cases hfalse
          · rw [if_neg hcf] at h
            cases h
            exact Or.inr (Or.inl ⟨Bool.eq_false_iff.mpr hov, rfl⟩)
    | none =>
      simp only [hf] at h
      obtain ⟨w1, w2, w3, w4, w5⟩ := writeStep_ok_cases _ _ _ _ _ _ _ _ h
      refine Or.inr (Or.inr ⟨w1, w2, w3, ?_⟩)
      rcases w5 with ⟨hfalse, _, _⟩ | ⟨_, hc, hu⟩
      · cases hfalse
      · exact Or.inr ⟨hc, hu⟩

/-! ## C8: the manifest partitions the input files -/

theorem kindEntries_cons_none (k : OutcomeKind)
    (tags : List (Option (OutcomeKind × String))) :
    kindEntries k (none :: tags) = kindEntries k tags := by
  simp [kindEntries]

theorem kindEntries_cons_some (k k' : OutcomeKind) (x : String)
    (tags : List (Option (OutcomeKind × String))) :
    kindEntries k (some (k', x) :: tags)
      = if k' = k then x :: kindEntries k tags else kindEntries k tags := by
  simp only [kindEntries, List.filterMap_cons]
  split <;> split <;> simp_all

theorem runFiles_partition (config : Config) (env : Env)
    (allPaths : List String) (opts : UpdateOptions) (l : List RegFile)
    (st st' : RunState)
    (h : runFiles config env allPaths opts l st = Except.ok st') :
    ∃ tags : List (Option (OutcomeKind × String)),
      tags.length = l.length ∧
      st'.filesCreated = st.filesCreated ++ kindEntries OutcomeKind.created tags ∧
      st'.filesUpdated = st.filesUpdated ++ kindEntries OutcomeKind.updated tags ∧
      st'.filesSkipped = st.filesSkipped ++ kindEntries OutcomeKind.skipped tags := by
  induction l generalizing st with
  | nil =>
    cases h
    exact ⟨[], rfl, by simp [kindEntries], by simp [kindEntries],
      by simp [kindEntries]⟩
  | cons f rest ih =>
    rw [runFiles] at h
    cases hpf : processFile config env allPaths opts st f with
    | error e => rw [hpf] at h; cases h
    | ok st1 =>
      rw [hpf] at h
      obtain ⟨tags, hlen, hc, hu, hs⟩ := ih st1 h
      rcases processFile_ok_cases _ _ _ _ _ _ _ hpf with
        ⟨_, rfl⟩ |
        ⟨p, _, ⟨e, _, _, rfl⟩ | ⟨_, rfl⟩ | ⟨_, _, w3, ⟨wu, wc⟩ | ⟨wc, wu⟩⟩⟩
      · exact ⟨none :: tags, by simp [hlen], by simpa [kindEntries_cons_none]
          using hc, by simpa [kindEntries_cons_none] using hu,
          by simpa [kindEntries_cons_none] using hs⟩
      · refine ⟨some (OutcomeKind.skipped,
          pathRelative config.resolvedPaths.cwd p) :: tags,
          by simp [hlen], ?_, ?_, ?_⟩
        · rw [kindEntries_cons_some, if_neg (by simp)]
          simpa using hc
        · rw [kindEntries_cons_some, if_neg (by simp)]
          simpa using hu
        · rw [kindEntries_cons_some, if_pos rfl]
          simp only at hs
          rw [hs, List.append_assoc]
          rfl
      · refine ⟨some (OutcomeKind.skipped,
          pathRelative config.resolvedPaths.cwd p) :: tags,
          by simp [hlen], ?_, ?_, ?_⟩
        · rw [kindEntries_cons_some, if_neg (by simp)]
          simpa using hc
        · rw [kindEntries_cons_some, if_neg (by simp)]
          simpa using hu
        · rw [kindEntries_cons_some, if_pos rfl]
          simp only at hs
          rw [hs, List.append_assoc]
          rfl
      · refine ⟨some (OutcomeKind.updated,
          pathRelative config.resolvedPaths.cwd p) :: tags,
          by simp [hlen], ?_, ?_, ?_⟩
        · rw [kindEntries_cons_some, if_neg (by simp)]
          rw [hc, wc]
        · rw [kindEntries_cons_some, if_pos rfl]
          rw [hu, wu, List.append_assoc]
          rfl
        · rw [kindEntries_cons_some, if_neg (by simp)]
          rw [hs, w3]
      · refine ⟨some (OutcomeKind.created,
          pathRelative config.resolvedPaths.cwd p) :: tags,
          by simp [hlen], ?_, ?_, ?_⟩
        · rw [kindEntries_cons_some, if_pos rfl]
          rw [hc, wc, List.append_assoc]
          rfl
        · rw [kindEntries_cons_some, if_neg (by simp)]
          rw [hu, wu]
        · rw [kindEntries_cons_some, if_neg (by simp)]
          rw [hs, w3]

/-- C8.  In every successful run of `updateFiles` there is one tag per input
file — `none` for excluded files, or one `(list, entry)` pair — such that
each outcome list is exactly the in-order sequence of entries tagged for it.
Hence every input file contributes at most one entry to the union of
`created`, `updated` and `skipped` (the lists are mutually exclusive per
file), and within each list the entries appear in input order. -/
theorem updateFiles_manifest_partition (files : List RegFile) (config : Config)
    (opts : UpdateOptions) (env : Env) (fs0 : FileSystem) (r : RunResult)
    (h : updateFiles (some files) config opts env fs0 = Except.ok r) :
    ∃ tags : List (Option (OutcomeKind × String)),
      tags.length = files.length ∧
      r.filesCreated = kindEntries OutcomeKind.created tags ∧
      r.filesUpdated = kindEntries OutcomeKind.updated tags ∧
      r.filesSkipped = kindEntries OutcomeKind.skipped tags := by
  simp only [updateFiles] at h
  by_cases hemp : files.isEmpty
  · rw [if_pos hemp] at h
    cases h
    refine ⟨[], ?_, rfl, rfl, rfl⟩
    rw [List.isEmpty_iff.mp hemp]
    rfl
  · rw [if_neg hemp] at h
    cases hr : runFiles config env (files.map RegFile.path) opts files
        ⟨[], [], [], fs0, [], []⟩ with
    | error e => rw [hr] at h; cases h
    | ok st =>
      rw [hr] at h
      cases h
      obtain ⟨tags, hlen, hc, hu, hs⟩ := runFiles_partition _ _ _ _ _ _ _ hr
      exact ⟨tags, hlen, by simpa using hc, by simpa using hu, by simpa using hs⟩

/-- Witness for C8: a one-file batch (metadata-only file) admits the tag
assignment `[none]`. -/
theorem updateFiles_manifest_partition_witness :
    ∃ tags : List (Option (OutcomeKind × String)),
      tags.length = ([⟨"m", "registry:lib", none, none⟩] : List RegFile).length ∧
      (⟨[], [], [], emptyFs, [], [], true⟩ : RunResult).filesCreated
        = kindEntries OutcomeKind.created tags ∧
      (⟨[], [], [], emptyFs, [], [], true⟩ : RunResult).filesUpdated
        = kindEntries OutcomeKind.updated tags ∧
      (⟨[], [], [], emptyFs, [], [], true⟩ : RunResult).filesSkipped
        = kindEntries OutcomeKind.skipped tags :=
  updateFiles_manifest_partition [⟨"m", "registry:lib", none, none⟩]
    sampleConfig ⟨false, false, false⟩ sampleEnv emptyFs
    ⟨[], [], [], emptyFs, [], [], true⟩ rfl

/-! ## C1: idempotence under `overwrite` -/

theorem fsGet_of_files_eq_cons (fs' fs : FileSystem) (p c r : String)
    (hf : fs'.files = (p, c) :: fs.files) (hne : p ≠ r) :
    fsGet fs' r = fsGet fs r := by
  simp only [fsGet, hf]
  rw [List.find?_cons_of_neg]
  simp [hne]

theorem fsGet_self_of_files_eq_cons (fs' fs : FileSystem) (p c : String)
    (hf : fs'.files = (p, c) :: fs.files) :
    fsGet fs' p = some c := by
  simp only [fsGet, hf]
  rw [List.find?_cons_of_pos]
  · rfl
  · exact decide_eq_true rfl

theorem processFile_establishes_good (config : Config) (env : Env)
    (allPaths : List String) (opts : UpdateOptions) (st st' : RunState)
    (file : RegFile) (hov : opts.overwrite = true)
    (h : processFile config env allPaths opts st file = Except.ok st') :
    GoodFile config env allPaths st'.fs file := by
  intro p hp
  rcases processFile_ok_cases _ _ _ _ _ _ _ h with
    ⟨hn, rfl⟩ | ⟨q, hq, ⟨e, he, heq, rfl⟩ | ⟨hovf, _⟩ | ⟨w1, _, _, _⟩⟩
  · rw [hn] at hp
    cases hp
  · rw [hq] at hp
    cases hp
    exact ⟨e, he, heq⟩
  · rw [hov] at hovf
    cases hovf
  · rw [hq] at hp
    cases hp
    exact ⟨trContent env file, fsGet_self_of_files_eq_cons st'.fs st.fs p
      (trContent env file) w1, rfl⟩

theorem processFile_preserves_good (config : Config) (env : Env)
    (allPaths : List String) (opts : UpdateOptions) (st st' : RunState)
    (f g : RegFile)
    (h : processFile config env allPaths opts st g = Except.ok st')
    (hdiff : ∀ p, effectiveFilePath config env allPaths f = some p →
      effectiveFilePath config env allPaths g ≠ some p)
    (hg : GoodFile config env allPaths st.fs f) :
    GoodFile config env allPaths st'.fs f := by
  intro p hp
  obtain ⟨e, he, heq⟩ := hg p hp
  refine ⟨e, ?_, heq⟩
  rcases processFile_ok_cases _ _ _ _ _ _ _ h with
    ⟨_, rfl⟩ | ⟨q, hq, ⟨_, _, _, rfl⟩ | ⟨_, rfl⟩ | ⟨w1, _, _, _⟩⟩
  · exact he
  · exact he
  · exact he
  · rw [fsGet_of_files_eq_cons st'.fs st.fs q (trContent env g) p w1 ?_]
    · exact he
    · intro hqp
      exact hdiff p hp (hqp ▸ hq)

theorem runFiles_preserves_good (config : Config) (env : Env)
    (allPaths : List String) (opts : UpdateOptions) (l : List RegFile)
    (st st' : RunState) (f : RegFile)
    (h : runFiles config env allPaths opts l st = Except.ok st')
    (hdiff : ∀ g ∈ l, ∀ p, effectiveFilePath config env allPaths f = some p →
      effectiveFilePath config env allPaths g ≠ some p)
    (hg : GoodFile config env allPaths st.fs f) :
    GoodFile config env allPaths st'.fs f := by
  induction l generalizing st with
  | nil =>
    cases h
    exact hg
  | cons g rest ih =>
    rw [runFiles] at h
    cases hpf : processFile config env allPaths opts st g with
    | error e => rw [hpf] at h; cases h
    | ok st1 =>
      rw [hpf] at h
      exact ih st1 h (fun g' hg' => hdiff g' (List.mem_cons_of_mem _ hg'))
        (processFile_preserves_good _ _ _ _ _ _ _ _ hpf
          (hdiff g (List.mem_cons_self _ _)) hg)

theorem runFiles_good_all (config : Config) (env : Env)
    (allPaths : List String) (opts : UpdateOptions) (l : List RegFile)
    (st st' : RunState) (hov : opts.overwrite = true)
    (h : runFiles config env allPaths opts l st = Except.ok st')
    (hnd : (l.filterMap (effectiveFilePath config env allPaths)).Nodup) :
    ∀ f ∈ l, GoodFile config env allPaths st'.fs f := by
  induction l generalizing st with
  | nil => intro f hf; cases hf
  | cons g rest ih =>
    rw [runFiles] at h
    cases hpf : processFile config env allPaths opts st g with
    | error e => rw [hpf] at h; cases h
    | ok st1 =>
      rw [hpf] at h
      intro f hf
      cases heff : effectiveFilePath config env allPaths g with
      | none =>
        rw [List.filterMap_cons_none heff] at hnd
        rcases List.mem_cons.mp hf with rfl | hfr
        · intro p hp
          rw [heff] at hp
          cases hp
        · exact ih st1 h hnd f hfr
      | some q =>
        rw [List.filterMap_cons_some heff] at hnd
        obtain ⟨hqn, hnd'⟩ := List.nodup_cons.mp hnd
        rcases List.mem_cons.mp hf with rfl | hfr
        · refine runFiles_preserves_good _ _ _ _ _ _ _ _ h ?_
            (processFile_establishes_good _ _ _ _ _ _ _ hov hpf)
          intro g' hg' p hp hgp
          rw [heff] at hp
          cases hp
          exact hqn (List.mem_filterMap.mpr ⟨g', hg', hgp⟩)
        · exact ih st1 h hnd' f hfr

theorem runFiles_all_skip (config : Config) (env : Env)
    (allPaths : List String) (opts : UpdateOptions) (l : List RegFile)
    (st : RunState)
    (h : ∀ f ∈ l, GoodFile config env allPaths st.fs f) :
    runFiles config env allPaths opts l st
      = Except.ok
        {st with filesSkipped :=
          st.filesSkipped ++ l.filterMap (skippedEntry config env allPaths)} := by
  induction l generalizing st with
  | nil => simp [runFiles]
  | cons f rest ih =>
    cases heff : effectiveFilePath config env allPaths f with
    | none =>
      rw [runFiles, processFile_noop _ _ _ _ _ _ heff]
      show runFiles config env allPaths opts rest st = _
      rw [ih st (fun f' hf' => h f' (List.mem_cons_of_mem _ hf'))]
      simp [skippedEntry, heff]
    | some p =>
      obtain ⟨e, he, heq⟩ := h f (List.mem_cons_self _ _) p heff
      rw [runFiles, processFile_skip_of_equal _ _ _ _ _ _ _ _ heff he heq]
      show runFiles config env allPaths opts rest _ = _
      rw [ih {st with filesSkipped := st.filesSkipped ++ [pathRelative config.resolvedPaths.cwd p]} (fun f' hf' => h f' (List.mem_cons_of_mem _ hf'))]
      simp [skippedEntry, heff, List.append_assoc]

theorem runFiles_manifest_entries (config : Config) (env : Env)
    (allPaths : List String) (opts : UpdateOptions) (l : List RegFile)
    (st st' : RunState)
    (h : runFiles config env allPaths opts l st = Except.ok st') :
    (∀ x ∈ st'.filesCreated, x ∈ st.filesCreated ∨
      x ∈ l.filterMap (skippedEntry config env allPaths)) ∧
    (∀ x ∈ st'.filesUpdated, x ∈ st.filesUpdated ∨
      x ∈ l.filterMap (skippedEntry config env allPaths)) := by
  induction l generalizing st with
  | nil =>
    cases h
    exact ⟨fun x hx => Or.inl hx, fun x hx => Or.inl hx⟩
  | cons f rest ih =>
    rw [runFiles] at h
    cases hpf : processFile config env allPaths opts st f with
    | error e => rw [hpf] at h; cases h
    | ok st1 =>
      rw [hpf] at h
      obtain ⟨ihc, ihu⟩ := ih st1 h
      have hsub : ∀ x, x ∈ rest.filterMap (skippedEntry config env allPaths) →
          x ∈ (f :: rest).filterMap (skippedEntry config env allPaths) := by
        intro x hx
        rw [List.filterMap_cons]
        split
        · exact hx
        · exact List.mem_cons_of_mem _ hx
      rcases processFile_ok_cases _ _ _ _ _ _ _ hpf with
        ⟨_, rfl⟩ | ⟨p, hp, ⟨e, _, _, rfl⟩ | ⟨_, rfl⟩ |
          ⟨_, _, _, ⟨wu, wc⟩ | ⟨wc, wu⟩⟩⟩
      · exact ⟨fun x hx => (ihc x hx).imp id (hsub x),
          fun x hx => (ihu x hx).imp id (hsub x)⟩
      · exact ⟨fun x hx => (ihc x hx).imp id (hsub x),
          fun x hx => (ihu x hx).imp id (hsub x)⟩
      · exact ⟨fun x hx => (ihc x hx).imp id (hsub x),
          fun x hx => (ihu x hx).imp id (hsub x)⟩
      · have hhead : skippedEntry config env allPaths f
            = some (pathRelative config.resolvedPaths.cwd p) := by
          simp [skippedEntry, hp]
        constructor
        · intro x hx
          rcases ihc x hx with h1 | h2
          · exact Or.inl (wc ▸ h1)
          · exact Or.inr (hsub x h2)
        · intro x hx
          rcases ihu x hx with h1 | h2
          · rw [wu] at h1
            rcases List.mem_append.mp h1 with h3 | h3
            · exact Or.inl h3
            · refine Or.inr ?_
              rw [List.filterMap_cons, hhead]
              simp only [List.mem_singleton] at h3
              exact h3 ▸ List.mem_cons_self _ _
          · exact Or.inr (hsub x h2)
      · have hhead : skippedEntry config env allPaths f
            = some (pathRelative config.resolvedPaths.cwd p) := by
          simp [skippedEntry, hp]
        constructor
        · intro x hx
          rcases ihc x hx with h1 | h2
          · rw [wc] at h1
            rcases List.mem_append.mp h1 with h3 | h3
            · exact Or.inl h3
            · refine Or.inr ?_
              rw [List.filterMap_cons, hhead]
              simp only [List.mem_singleton] at h3
              exact h3 ▸ List.mem_cons_self _ _
          · exact Or.inr (hsub x h2)
        · intro x hx
          rcases ihu x hx with h1 | h2
          · exact Or.inl (wu ▸ h1)
          · exact Or.inr (hsub x h2)

/-- C1 (amended).  Reconciliation is idempotent under `overwrite=true`
provided no two input files resolve to the same effective path: if a first
run succeeds, a second run with identical inputs on the resulting filesystem
succeeds, performs no write and no prompt at all, and records in `skipped`
(among all processed files) every file the first run reported as created or
updated. -/
theorem updateFiles_idempotent_overwrite (files : List RegFile)
    (config : Config) (opts : UpdateOptions) (env : Env) (fs0 : FileSystem)
    (r1 : RunResult) (hov : opts.overwrite = true)
    (hnd : (files.filterMap
      (effectiveFilePath config env (files.map RegFile.path))).Nodup)
    (h1 : updateFiles (some files) config opts env fs0 = Except.ok r1) :
    ∃ r2, updateFiles (some files) config opts env r1.fs = Except.ok r2 ∧
      r2.writes = [] ∧ r2.prompts = [] ∧
      ∀ x, x ∈ r1.filesCreated ++ r1.filesUpdated → x ∈ r2.filesSkipped := by
  simp only [updateFiles] at h1
  by_cases hemp : files.isEmpty
  · rw [if_pos hemp] at h1
    cases h1
    refine ⟨⟨[], [], [], fs0, [], [], false⟩, ?_, rfl, rfl, ?_⟩
    · show updateFiles (some files) config opts env fs0 = _
      simp only [updateFiles]
      rw [if_pos hemp]
    · intro x hx
      simp at hx
  · rw [if_neg hemp] at h1
    cases hr : runFiles config env (files.map RegFile.path) opts files
        ⟨[], [], [], fs0, [], []⟩ with
    | error e => rw [hr] at h1; cases h1
    | ok st =>
      rw [hr] at h1
      cases h1
      have hgood := runFiles_good_all config env (files.map RegFile.path)
        opts files _ _ hov hr hnd
      have hrun2 := runFiles_all_skip config env (files.map RegFile.path)
        opts files ⟨[], [], [], st.fs, [], []⟩ (fun f hf => hgood f hf)
      refine ⟨⟨[], [],
        [] ++ files.filterMap (skippedEntry config env (files.map RegFile.path)),
        st.fs, [], [], true⟩, ?_, rfl, rfl, ?_⟩
      · show updateFiles (some files) config opts env st.fs = _
        simp only [updateFiles]
        rw [if_neg hemp, hrun2]
      · intro x hx
        have hman := runFiles_manifest_entries config env
          (files.map RegFile.path) opts files _ _ hr
        rcases List.mem_append.mp hx with hc | hu
        · rcases hman.1 x hc with habs | hfm
          · exact absurd habs (List.not_mem_nil x)
          · exact hfm
        · rcases hman.2 x hu with habs | hfm
          · exact absurd habs (List.not_mem_nil x)
          · exact hfm

/-- C1 counterexample: with two input files resolving to the same path
`/proj/x.ts` but different contents, the first `overwrite=true` run reports
`x.ts` as created (and updated), yet the second identical run on the
resulting filesystem skips nothing — it updates both files again — so a
first-run `created` entry is absent from the second run's `skipped`. -/
theorem updateFiles_idempotence_cex :
    updateFiles (some [⟨"a.ts", "registry:lib", some "~/x.ts", some "A"⟩,
        ⟨"b.ts", "registry:lib", some "~/x.ts", some "B"⟩])
      sampleConfig ⟨true, false, false⟩ sampleEnv emptyFs
      = Except.ok ⟨["x.ts"], ["x.ts"], [],
          ⟨[("/proj/x.ts", "B"), ("/proj/x.ts", "A")], ["/proj"]⟩,
          ["/proj/x.ts", "/proj/x.ts"], [], true⟩ ∧
    updateFiles (some [⟨"a.ts", "registry:lib", some "~/x.ts", some "A"⟩,
        ⟨"b.ts", "registry:lib", some "~/x.ts", some "B"⟩])
      sampleConfig ⟨true, false, false⟩ sampleEnv
      ⟨[("/proj/x.ts", "B"), ("/proj/x.ts", "A")], ["/proj"]⟩
      = Except.ok ⟨[], ["x.ts", "x.ts"], [],
          ⟨[("/proj/x.ts", "B"), ("/proj/x.ts", "A"), ("/proj/x.ts", "B"),
            ("/proj/x.ts", "A")], ["/proj"]⟩,
          ["/proj/x.ts", "/proj/x.ts"], [], true⟩ ∧
    ("x.ts" : String) ∈ (["x.ts"] : List String) ∧
    ("x.ts" : String) ∉ ([] : List String) :=
  ⟨rfl, rfl, by decide, by decide⟩

/-- Witness for the amended C1: re-running the one-file batch on the
filesystem its first run produced yields a second run with no writes and the
created file skipped. -/
theorem updateFiles_idempotent_overwrite_witness :
    ∃ r2, updateFiles
        (some [⟨"button.tsx", "registry:component", some "~/button.tsx",
          some "hello"⟩])
        sampleConfig ⟨true, false, false⟩ sampleEnv
        (RunResult.fs ⟨["button.tsx"], [], [],
          ⟨[("/proj/button.tsx", "hello")], ["/proj"]⟩,
          ["/proj/button.tsx"], [], true⟩)
      = Except.ok r2 ∧ r2.writes = [] ∧ r2.prompts = [] ∧
      ∀ x, x ∈ RunResult.filesCreated ⟨["button.tsx"], [], [],
          ⟨[("/proj/button.tsx", "hello")], ["/proj"]⟩,
          ["/proj/button.tsx"], [], true⟩
        ++ RunResult.filesUpdated ⟨["button.tsx"], [], [],
          ⟨[("/proj/button.tsx", "hello")], ["/proj"]⟩,
          ["/proj/button.tsx"], [], true⟩ → x ∈ r2.filesSkipped :=
  updateFiles_idempotent_overwrite
    [⟨"button.tsx", "registry:component", some "~/button.tsx", some "hello"⟩]
    sampleConfig ⟨true, false, false⟩ sampleEnv emptyFs
    ⟨["button.tsx"], [], [], ⟨[("/proj/button.tsx", "hello")], ["/proj"]⟩,
      ["/proj/button.tsx"], [], true⟩
    rfl (by decide) rfl
